import Mathlib

/-!
# Verification of the tiered cache service (`src/core/services/cache_service.py`)

A shallow embedding of the cache service of the fact-checker repository,
together with theorems settling the specification claims about it.

Conventions of the embedding:
* Python strings are Lean `String`s; Python's ordinal string comparison is
  `pyStrLe` (lexicographic on code points).
* Python's `sorted` is modelled by a stable insertion sort `pySorted` with the
  same comparator — extensionally equal to any ascending stable sort.
* Python exceptions are modelled with `Except Unit`; a `try/except` block that
  returns a fallback is `pyTry`.
* `async` suspension points are made explicit where a claim is about
  interleaving; elsewhere `await f()` is just `f`'s value.
-/

/-- Lexicographic `≤` on character lists: Python's `str` comparison. -/
def charListLe : List Char → List Char → Bool
  | [], _ => true
  | _ :: _, [] => false
  | a :: as, b :: bs =>
    if a.toNat < b.toNat then true
    else if b.toNat < a.toNat then false
    else charListLe as bs

/-- Python's ordinal `≤` on strings. -/
def pyStrLe (s t : String) : Bool := charListLe s.data t.data

/-- Insert into an ascending list (stable enough: equal keys are interchangeable
for every property proved below). -/
def sortedInsert (le : α → α → Bool) (a : α) : List α → List α
  | [] => [a]
  | b :: bs => if le a b then a :: b :: bs else b :: sortedInsert le a bs

/-- Ascending sort with comparator `le`; models Python's `sorted`. -/
def pySorted (le : α → α → Bool) : List α → List α
  | [] => []
  | a :: as => sortedInsert le a (pySorted le as)

/-- Python `sorted(l)` for strings. -/
def pySortedStr (l : List String) : List String := pySorted pyStrLe l

/-- Python `sorted(list(set(l)))`: duplicates removed, then sorted ascending. -/
def pySortedSet (l : List String) : List String := pySortedStr l.dedup

deriving instance DecidableEq for Except

/-- `try: body except: fallback` returning a value. -/
def pyTry (body : Except Unit α) (fallback : α) : α :=
  match body with
  | .ok v => v
  | .error _ => fallback

/-- Substring after the first `':'`: Python `k.split(':', 1)[1]`
(meaningful when `k` contains a colon). -/
def afterFirstColon (k : String) : String :=
  match k.data.dropWhile (fun c => c ≠ ':') with
  | [] => ""
  | _ :: rest => ⟨rest⟩

/-- Substring before the first `':'`: Python `k.split(':', 1)[0]`. -/
def beforeFirstColon (k : String) : String :=
  ⟨k.data.takeWhile (fun c => c ≠ ':')⟩

/-- Python `':' in k`. -/
def containsColon (k : String) : Bool := k.data.any (fun c => c = ':')

/-- Python `s.startswith(pre)`. -/
def pyStartsWith (s pre : String) : Bool := pre.data.isPrefixOf s.data

/-- Python `s.endswith(suf)`. -/
def pyEndsWith (s suf : String) : Bool := suf.data.isSuffixOf s.data

/-- Python `s.replace('*', '')`: every `'*'` removed. -/
def pyRemoveStar (s : String) : String := ⟨s.data.filter (fun c => c ≠ '*')⟩

/-- Python `s[:-n]` (for `n ≤ len(s)`): drop the last `n` characters. -/
def pyDropRight (s : String) (n : Nat) : String :=
  ⟨s.data.take (s.data.length - n)⟩

/-- Python `sep.join(l)`. -/
def pyJoin (sep : String) : List String → String
  | [] => ""
  | [x] => x
  | x :: xs => x ++ sep ++ pyJoin sep xs

/-!
## Statistics (`get_stats`, `_get_file_cache_size`, `_get_redis_size`)

Source: `cache_service.py` lines 3–58.  `get_stats` is a *synchronous* method;
`_get_redis_size` is an `async def`.  The expression `self._get_redis_size()`
inside `get_stats` therefore produces a coroutine object and never runs the
body.  The embedding types the dictionary values with `StatVal` so that this
distinction is expressible.
-/

/-- A value stored in the dictionary returned by `get_stats`. -/
inductive StatVal where
  /-- an ordinary integer -/
  | int (n : Nat)
  /-- a floating ratio; modelled exactly over ℚ -/
  | ratio (q : ℚ)
  /-- a coroutine object produced by calling an `async def` without `await` -/
  | coroutine (method : String)
deriving DecidableEq

/-- The `self.stats` counter dictionary. -/
structure CacheStats where
  hits : Nat
  misses : Nat
  memory_hits : Nat
  file_hits : Nat
  redis_hits : Nat
deriving DecidableEq

/-- `_get_file_cache_size`: sum of the sizes of the `.cache` files in the cache
directory; any failure (e.g. unreadable directory) yields `0`.  The directory
listing is a name ↦ size association; `.error` models an `OSError`. -/
def _get_file_cache_size (listing : Except Unit (List (String × Nat))) : Nat :=
  pyTry (do
    let files ← listing
    let sizes := (files.filter (fun f => pyEndsWith f.1 ".cache")).map (·.2)
    pure (sizes.foldl (· + ·) 0)) 0

/-- The *awaited* semantics of `_get_redis_size`: the remote key count, `0`
with no client configured, `0` on any client error.  (`get_stats` never awaits
it — see `get_stats.redis_cache_size`.) -/
def _get_redis_size_awaited (redis : Option (Except Unit Nat)) : Nat :=
  match redis with
  | none => 0
  | some (.ok n) => n
  | some (.error _) => 0

/-- The dictionary returned by `get_stats`. -/
structure StatsReport where
  total_requests : Nat
  hits : Nat
  misses : Nat
  hit_rate : ℚ
  memory_hits : Nat
  file_hits : Nat
  redis_hits : Nat
  memory_cache_size : Nat
  file_cache_size : Nat
  redis_cache_size : StatVal
  last_cleanup : StatVal
deriving DecidableEq

/-- `get_stats` (lines 3–25).  `memory_len` is `len(self.memory_cache)`;
`dirListing` backs `_get_file_cache_size`; `last_cleanup` abstracts the elided
helper `_get_last_cleanup_time`.  `redis_cache_size` holds the result of the
expression `self._get_redis_size()` — a coroutine object, since the `async`
method is called without `await`. -/
def get_stats (s : CacheStats) (memory_len : Nat)
    (dirListing : Except Unit (List (String × Nat))) (last_cleanup : StatVal) :
    StatsReport :=
  let total_requests := s.hits + s.misses
  let hit_rate : ℚ := if total_requests > 0 then (s.hits : ℚ) / (total_requests : ℚ) else 0
  { total_requests := total_requests
    hits := s.hits
    misses := s.misses
    hit_rate := hit_rate
    memory_hits := s.memory_hits
    file_hits := s.file_hits
    redis_hits := s.redis_hits
    memory_cache_size := memory_len
    file_cache_size := _get_file_cache_size dirListing
    redis_cache_size := StatVal.coroutine "_get_redis_size"
    last_cleanup := last_cleanup }

/-!
## Key listing (`get_keys`, `get_namespaces`)

Source: `cache_service.py` lines 60–151.  The three tiers are enumerated with
*different* matching semantics: the memory tier tests
`k.startswith(pattern.replace('*', ''))`, the Redis tier delegates to
server-side glob matching (`redis.keys(pattern)`), and the file tier uses
`glob.glob` on `pattern + ".cache"`.
-/

/-- Fuel-driven glob matcher (`*` = any sequence, `?` = any one character,
other characters literal; character classes do not occur in this service's
patterns).  `fuel > pattern.length + s.length` always suffices. -/
def globMatchFuel : Nat → List Char → List Char → Bool
  | 0, _, _ => false
  | _ + 1, [], s => s.isEmpty
  | f + 1, '*' :: ps, s =>
    globMatchFuel f ps s ||
      (match s with
       | [] => false
       | _ :: cs => globMatchFuel f ('*' :: ps) cs)
  | f + 1, '?' :: ps, _ :: cs => globMatchFuel f ps cs
  | _ + 1, '?' :: _, [] => false
  | f + 1, p :: ps, c :: cs => p == c && globMatchFuel f ps cs
  | _ + 1, _ :: _, [] => false

/-- Glob matching of a whole string, as `glob.glob` and `redis.keys` match. -/
def globMatch (pattern s : String) : Bool :=
  globMatchFuel (pattern.data.length + s.data.length + 1) pattern.data s.data

/-- A key held by the Redis server: the raw bytes (as matched server-side) and
the outcome of `k.decode()` (`.error` = bytes that are not valid UTF-8). -/
structure RedisKey where
  raw : String
  decoded : Except Unit String
deriving DecidableEq

/-- The observable surroundings of one `get_keys`/`get_namespaces` call. -/
structure CacheEnv where
  /-- `self.memory_cache.keys()` -/
  memoryKeys : List String
  /-- `self.redis` and its key set, when a client is configured -/
  redis : Option (List RedisKey)
  /-- the `redis.keys(...)` round trip itself raises -/
  redisFail : Bool
  /-- `os.listdir(self.cache_dir)`; `.error` models an `OSError` -/
  cacheDirFiles : Except Unit (List String)
deriving DecidableEq

/-- Strip the namespace prefix from a canonical key:
`k.split(':', 1)[1] if ':' in k else k`. -/
def stripNamespace (k : String) : String :=
  if containsColon k then afterFirstColon k else k

/-- Lines 76–77: `if namespace: pattern = f"{namespace}:{pattern}"`. -/
def patternWithNamespace (pattern : String) (namespace_ : Option String) : String :=
  match namespace_ with
  | some ns => ns ++ ":" ++ pattern
  | none => pattern

/-- The raw key a file-tier entry contributes: `splitext(basename)[0]`, with
the namespace stripped when the basename holds a colon (lines 101–106). -/
def fileRawKey (b : String) : String :=
  let stem := if pyEndsWith b ".cache" then pyDropRight b 6 else b
  if containsColon b then afterFirstColon stem else stem

/-- The Redis part of `get_keys` (lines 90–96): `redis.keys(pattern)` — a
server-side glob match — followed by decoding each returned key. -/
def redisKeysStep (redis : Option (List RedisKey)) (redisFail : Bool)
    (pat : String) : Except Unit (List String) :=
  match redis with
  | none => pure []
  | some db =>
    if redisFail then Except.error () else do
      let decoded ← (db.filter (fun k => globMatch pat k.raw)).mapM
        (fun k => k.decoded)
      pure (decoded.map stripNamespace)

/-- The body of `get_keys` (lines 75–109), with each suspension/IO point in the
`Except` monad; the decoded Redis keys are demanded one by one exactly as the
set comprehension does. -/
def get_keys_run (env : CacheEnv) (pattern : String) (namespace_ : Option String) :
    Except Unit (List String) := do
  let pat := patternWithNamespace pattern namespace_
  -- memory tier: prefix test against the pattern with every '*' removed
  let memKeys := (env.memoryKeys.filter
      (fun k => pyStartsWith k (pyRemoveStar pat))).map stripNamespace
  -- Redis tier
  let redisKeys ← redisKeysStep env.redis env.redisFail pat
  -- file tier: glob.glob(cache_dir/f"{pattern}.cache") (returns [] on OSError),
  -- then basename/splitext raw-key extraction
  let fileNames := match env.cacheDirFiles with
    | .error _ => []
    | .ok fs => fs.filter (fun b => globMatch (pat ++ ".cache") b)
  let fileKeys := fileNames.map fileRawKey
  pure (pySortedSet (memKeys ++ redisKeys ++ fileKeys))

/-- `get_keys`: the body under `try`, `[]` on any exception (lines 111–113). -/
def get_keys (env : CacheEnv) (pattern : String) (namespace_ : Option String) :
    List String :=
  pyTry (get_keys_run env pattern namespace_) []

/-- The Redis part of `get_namespaces` (lines 133–139): `redis.keys('*')`
returns every key, and each one is decoded. -/
def redisNamespacesStep (redis : Option (List RedisKey)) (redisFail : Bool) :
    Except Unit (List String) :=
  match redis with
  | none => pure []
  | some db =>
    if redisFail then Except.error () else do
      let decoded ← db.mapM (fun k => k.decoded)
      pure ((decoded.filter containsColon).map beforeFirstColon)

/-- The body of `get_namespaces` (lines 122–147). -/
def get_namespaces_run (env : CacheEnv) : Except Unit (List String) := do
  let memNs := (env.memoryKeys.filter containsColon).map beforeFirstColon
  let redisNs ← redisNamespacesStep env.redis env.redisFail
  -- file namespaces read `os.listdir` directly; an OSError propagates to the
  -- outer handler
  let files ← env.cacheDirFiles
  let fileNs := (files.filter
      (fun f => containsColon f && pyEndsWith f ".cache")).map beforeFirstColon
  pure (pySortedSet (memNs ++ redisNs ++ fileNs))

/-- `get_namespaces`: the body under `try`, `[]` on any exception. -/
def get_namespaces (env : CacheEnv) : List String :=
  pyTry (get_namespaces_run env) []

/-!
## Health checks (`health_check`, `_check_file_system`, `_check_redis`)

Source: lines 231–284.  Both helpers swallow their exceptions, so the
`except` branch of `health_check` itself is unreachable and the embedding is
total.
-/

/-- The environment a health probe observes. -/
structure HealthEnv where
  /-- outcome of the sentinel `pickle.dump` + `os.remove` in the cache dir -/
  fileSentinel : Except Unit Unit
  /-- `self.redis` and, when configured, the outcome of `redis.ping()` -/
  redis : Option (Except Unit Unit)
deriving DecidableEq

/-- `_check_file_system` (lines 255–269): sentinel write + delete, `False` on
any exception. -/
def _check_file_system (env : HealthEnv) : Bool :=
  match env.fileSentinel with
  | .ok _ => true
  | .error _ => false

/-- `_check_redis` (lines 271–284): `False` with no client configured or on a
failed ping. -/
def _check_redis (env : HealthEnv) : Bool :=
  match env.redis with
  | none => false
  | some (.ok _) => true
  | some (.error _) => false

/-- The dictionary returned by `health_check`. -/
structure HealthStatus where
  memory : Bool
  file : Bool
  redis : Bool
deriving DecidableEq

/-- `health_check` (lines 231–253).  The `except` arm returning all-`False` is
dead code because both helpers are total. -/
def health_check (env : HealthEnv) : HealthStatus :=
  { memory := true
    file := _check_file_system env
    redis := _check_redis env }

/-!
## Memoization wrapper (`cached`)

Source: lines 193–229.  The derived key is
`f"{func.__name__}:{str(args)}:{str(kwargs)}"` — only the *unqualified*
function name enters the key.
-/

/-- The identity of a wrapped Python function.  `module` (`__module__`) is part
of the identity of the operation but is never consulted by the key
derivation, which reads only `__name__`. -/
structure PyFunc where
  module : String
  name : String
deriving DecidableEq

/-- Python argument values that occur as cache-key material. -/
inductive PyVal where
  | int (n : Int)
  | str (s : String)
  | bool (b : Bool)
  | none
deriving DecidableEq

/-- Python `repr` of a `PyVal` (string case: no quotes/backslashes inside). -/
def pyRepr : PyVal → String
  | .int n => toString n
  | .str s => "'" ++ s ++ "'"
  | .bool b => if b then "True" else "False"
  | .none => "None"

/-- Python `str(args)` for a positional-argument tuple. -/
def pyStrTuple (args : List PyVal) : String :=
  match args with
  | [] => "()"
  | [a] => "(" ++ pyRepr a ++ ",)"
  | _ => "(" ++ pyJoin ", " (args.map pyRepr) ++ ")"

/-- Python `str(kwargs)` for a keyword-argument dict. -/
def pyStrDict (kwargs : List (String × PyVal)) : String :=
  match kwargs with
  | [] => "\x7b\x7d"
  | _ => "\x7b" ++
      pyJoin ", "
        (kwargs.map (fun kv => "'" ++ kv.1 ++ "': " ++ pyRepr kv.2)) ++ "\x7d"

/-- The wrapper's key derivation (line 209):
`f"{func.__name__}:{str(args)}:{str(kwargs)}"`. -/
def cached_key (func : PyFunc) (args : List PyVal)
    (kwargs : List (String × PyVal)) : String :=
  func.name ++ ":" ++ pyStrTuple args ++ ":" ++ pyStrDict kwargs

/-!
### The wrapper under concurrency

`wrapper` (lines 207–227) has three suspension points: `await self.get(...)`,
`await func(...)`, `await self.set(...)`.  The machine below runs two
invocations of the wrapper for the same derived key, interleaved by an
arbitrary schedule; the (elided) `get`/`set` are atomic accesses to the
entry for that key, per §4.1 of the spec.  The wrapped operation
deterministically returns `f`; `calls` counts how often it is run.
-/

/-- Progress of one wrapper invocation between its suspension points. -/
inductive WaiterPhase where
  /-- before `await self.get` -/
  | start
  /-- `get` returned `None`; before `await func` -/
  | missed
  /-- `func` returned; before `await self.set` -/
  | computed
  /-- returned -/
  | done
deriving DecidableEq

/-- One wrapper invocation: its phase, the local `result` variable, and the
value it returned (once done). -/
structure Waiter where
  pc : WaiterPhase
  tmp : Option Nat
  ret : Option Nat
deriving DecidableEq

/-- Shared state of two concurrent invocations of the memoized wrapper for one
uncached key. -/
structure MemoState where
  /-- the cache entry for the derived key (`None` = miss) -/
  cache : Option Nat
  /-- how many times the wrapped operation has run -/
  calls : Nat
  a : Waiter
  b : Waiter
deriving DecidableEq

/-- Advance one invocation by one atomic segment of `wrapper` (lines 207–227):
`start` runs `await self.get` (hit → return, miss → continue), `missed` runs
`await func(...)`, `computed` runs `await self.set` and returns. -/
def wrapperStep (f : Nat) (cache : Option Nat) (calls : Nat) (w : Waiter) :
    Option Nat × Nat × Waiter :=
  match w.pc with
  | .start =>
    match cache with
    | some v => (cache, calls, { w with pc := .done, ret := some v })
    | none => (cache, calls, { w with pc := .missed })
  | .missed => (cache, calls + 1, { w with pc := .computed, tmp := some f })
  | .computed => (w.tmp, calls, { w with pc := .done, ret := w.tmp })
  | .done => (cache, calls, w)

/-- Run the scheduled invocation (`true` = the first caller) one segment. -/
def memoStep (f : Nat) (s : MemoState) (who : Bool) : MemoState :=
  if who then
    let r := wrapperStep f s.cache s.calls s.a
    { s with cache := r.1, calls := r.2.1, a := r.2.2 }
  else
    let r := wrapperStep f s.cache s.calls s.b
    { s with cache := r.1, calls := r.2.1, b := r.2.2 }

/-- Both invocations poised at their `get`, key uncached. -/
def memoInit : MemoState :=
  { cache := none
    calls := 0
    a := { pc := .start, tmp := none, ret := none }
    b := { pc := .start, tmp := none, ret := none } }

/-- Run a schedule from the initial state. -/
def memoRun (f : Nat) (sched : List Bool) : MemoState :=
  sched.foldl (memoStep f) memoInit

/-!
## Backup and restore (`backup`, `restore`)

Source: lines 286–364.  `backup` names its snapshots
`memory_cache_{ts}.pkl` / `file_cache_{ts}` / `redis_cache_{ts}.rdb` with
`ts = now.strftime('%Y%m%d_%H%M%S')`.  `restore` picks, per prefix,
`sorted(f for f in os.listdir(backup_dir) if f.startswith(prefix))[-1]`,
loads the memory pickle *into the live field*, then `shutil.rmtree`s the live
cache directory and `copytree`s the snapshot into its place.
-/

/-- A `strftime('%Y%m%d_%H%M%S')` timestamp. -/
structure Timestamp where
  year : Nat
  month : Nat
  day : Nat
  hour : Nat
  minute : Nat
  second : Nat
deriving DecidableEq

/-- Two zero-padded decimal digits, as `%m`/`%d`/`%H`/`%M`/`%S` print. -/
def pad2 (n : Nat) : List Char := [Char.ofNat (48 + n / 10), Char.ofNat (48 + n % 10)]

/-- Four zero-padded decimal digits, as `%Y` prints. -/
def pad4 (n : Nat) : List Char := pad2 (n / 100) ++ pad2 (n % 100)

/-- The characters of `t.strftime('%Y%m%d_%H%M%S')`. -/
def fmtTimestampChars (t : Timestamp) : List Char :=
  pad4 t.year ++ pad2 t.month ++ pad2 t.day ++ '_' ::
    (pad2 t.hour ++ pad2 t.minute ++ pad2 t.second)

/-- `t.strftime('%Y%m%d_%H%M%S')`. -/
def fmtTimestamp (t : Timestamp) : String := ⟨fmtTimestampChars t⟩

/-- A snapshot file name, e.g. `memory_cache_20250101_120000.pkl`. -/
def snapshotName (pre : String) (t : Timestamp) (suf : String) : String :=
  pre ++ fmtTimestamp t ++ suf

/-- Chronological order of timestamps, collapsed to one number (base 100 per
component; exact on the in-range component values). -/
def chronoKey (t : Timestamp) : Nat :=
  ((((t.year * 100 + t.month) * 100 + t.day) * 100 + t.hour) * 100 + t.minute) * 100
    + t.second

/-- Component ranges under which `chronoKey` and the printed form are exact
(true calendar values are well inside them). -/
def ValidTimestamp (t : Timestamp) : Prop :=
  t.year < 10000 ∧ t.month < 100 ∧ t.day < 100 ∧ t.hour < 100 ∧
    t.minute < 100 ∧ t.second < 100

/-- Python `sorted(l)[-1]` on strings, `none` when the list is empty (the code
raises `IndexError` there). -/
def pySortedLast (l : List String) : Option String :=
  (pySortedStr l).getLast?

/-- The snapshot `restore` selects for a prefix:
`sorted(f for f in os.listdir(backup_dir) if f.startswith(prefix))[-1]`. -/
def selectSnapshot (prefix_ : String) (files : List String) : Option String :=
  pySortedLast (files.filter (fun f => pyStartsWith f prefix_))

/-- The live state `restore` mutates: the in-process memory dict and the cache
directory (`none` = the directory does not exist, as after `rmtree`). -/
structure LiveState where
  memory_cache : List (String × String)
  cache_dir : Option (List (String × String))
deriving DecidableEq

/-- The backup directory: its file names and the contents behind them. -/
structure BackupDir where
  files : List String
  /-- contents of the `memory_cache_*.pkl` pickles -/
  pickles : List (String × List (String × String))
  /-- contents of the `file_cache_*` snapshot directories -/
  dirs : List (String × List (String × String))
deriving DecidableEq

/-- `restore` (lines 325–364): each effect in program order, with the
fallible steps (`pickle.load`, `rmtree`, `copytree`) given explicit failure
switches.  Failures propagate (`raise` in the handler); the returned state is
the live state at the moment the call ends. -/
def restore_run (st : LiveState) (b : BackupDir)
    (loadFail rmFail copyFail redisConfigured : Bool) :
    Except Unit Unit × LiveState :=
  -- memory snapshot selection; IndexError when no such file
  match selectSnapshot "memory_cache_" b.files with
  | none => (.error (), st)
  | some mname =>
    -- open + pickle.load straight into the live field
    if loadFail then (.error (), st)
    else
      let loaded := ((b.pickles.find? (fun p => p.1 == mname)).map (·.2)).getD []
      let st1 := { st with memory_cache := loaded }
      -- file snapshot selection
      match selectSnapshot "file_cache_" b.files with
      | none => (.error (), st1)
      | some fname =>
        -- shutil.rmtree(self.cache_dir)
        if rmFail then (.error (), st1)
        else
          let st2 : LiveState := { st1 with cache_dir := none }
          -- shutil.copytree(backup/fname, self.cache_dir)
          if copyFail then (.error (), st2)
          else
            let contents := ((b.dirs.find? (fun p => p.1 == fname)).map (·.2)).getD []
            let st3 : LiveState := { st2 with cache_dir := some contents }
            -- redis snapshot selection (body empty); IndexError when absent
            if redisConfigured then
              match selectSnapshot "redis_cache_" b.files with
              | none => (.error (), st3)
              | some _ => (.ok (), st3)
            else (.ok (), st3)

/-!
## The orchestrator's `get`/`set`

The source file opens with a marker ("the earlier code is kept") eliding
`__init__`, `get`, `set` and `delete`; only their callers are in `src/`.  The
two operations the claims need are therefore modelled from the spec.
-/

/-- The canonical key `"namespace:rawkey"` (spec §3, the sole addressing
mechanism across tiers). -/
def canonicalKey (namespace_ key : String) : String := namespace_ ++ ":" ++ key

/-- Modelled from the spec: a `CacheEntry` (§3) —
`\x7b key, serializedValue, createdAt, expiresAt? \x7d`. -/
structure SpecEntry (α : Type) where
  value : α
  createdAt : Nat
  expiresAt : Option Nat
deriving DecidableEq

/-- Modelled from the spec: lazy expiry (§3) — an entry whose `expiresAt` has
passed is treated as absent by every reader. -/
def specExpired (now : Nat) (e : SpecEntry α) : Bool :=
  match e.expiresAt with
  | some x => x ≤ now
  | none => false

/-- Modelled from the spec: the state `get`/`set` act on — a bounded,
recency-ordered MemoryTier (most-recently-used last, §3/§4.2) and a FileTier
keyed by canonical key (§4.3); the RemoteTier is unconfigured here (§4.4
degraded mode).  `now` is the clock: "immediately followed" leaves it
unchanged. -/
structure SpecCache (α : Type) where
  capacity : Nat
  now : Nat
  memory : List (String × SpecEntry α)
  fileT : List (String × SpecEntry α)
deriving DecidableEq

/-- Modelled from the spec: insert into the MemoryTier (§4.2) — overwrite any
entry for the same key, evict the least-recently-used entry when at capacity,
append as most-recently-used. -/
def memInsert (c : SpecCache α) (ck : String) (e : SpecEntry α) :
    List (String × SpecEntry α) :=
  let m1 := c.memory.filter (fun kv => kv.1 != ck)
  let m2 := if c.capacity ≤ m1.length then m1.tail else m1
  m2 ++ [(ck, e)]

/-- Modelled from the spec: `set(key, value, ttl?, namespace)` (§4.1) —
canonicalize, build the entry with `expiresAt = now + ttl`, write to the
MemoryTier (subject to eviction) and write through to the FileTier with the
same `expiresAt`. -/
def spec_set (c : SpecCache α) (key : String) (v : α) (ttl : Option Nat)
    (namespace_ : String) : SpecCache α :=
  let ck := canonicalKey namespace_ key
  let e : SpecEntry α := { value := v, createdAt := c.now, expiresAt := ttl.map (c.now + ·) }
  { c with
    memory := memInsert c ck e
    fileT := (c.fileT.filter (fun kv => kv.1 != ck)) ++ [(ck, e)] }

/-- Modelled from the spec: `get(key, namespace)` (§4.1) — MemoryTier first
(lazily expiring and refreshing recency), then FileTier (expired entries are
deleted; hits are promoted into the MemoryTier with the entry's remaining
TTL), otherwise a miss. -/
def spec_get (c : SpecCache α) (key : String) (namespace_ : String) :
    Option α × SpecCache α :=
  let ck := canonicalKey namespace_ key
  match c.memory.find? (fun kv => kv.1 == ck) with
  | some (_, e) =>
    if specExpired c.now e then
      -- lazy expiry in memory, then fall through to the file tier
      let c1 := { c with memory := c.memory.filter (fun kv => kv.1 != ck) }
      match c1.fileT.find? (fun kv => kv.1 == ck) with
      | some (_, fe) =>
        if specExpired c1.now fe then
          (none, { c1 with fileT := c1.fileT.filter (fun kv => kv.1 != ck) })
        else
          (some fe.value, { c1 with memory := memInsert c1 ck fe })
      | none => (none, c1)
    else
      (some e.value, { c with memory := (c.memory.filter (fun kv => kv.1 != ck)) ++ [(ck, e)] })
  | none =>
    match c.fileT.find? (fun kv => kv.1 == ck) with
    | some (_, fe) =>
      if specExpired c.now fe then
        (none, { c with fileT := c.fileT.filter (fun kv => kv.1 != ck) })
      else
        (some fe.value, { c with memory := memInsert c ck fe })
    | none => (none, c)

/-!
## Auxiliary definitions for the claim statements and proofs
-/

/-- Strict lexicographic `<` on character lists. -/
def charListLt : List Char → List Char → Bool
  | [], [] => false
  | [], _ :: _ => true
  | _ :: _, [] => false
  | a :: as, b :: bs =>
    if a.toNat < b.toNat then true
    else if b.toNat < a.toNat then false
    else charListLt as bs

/-- Is a stats value an ordinary integer? -/
def StatVal.isInt : StatVal → Bool
  | .int _ => true
  | _ => false

/-- Invariant of one wrapper invocation: the local `result` is unset until the
operation runs at the `missed`→`computed` transition, holds the deterministic
operation's value from then on, and a finished invocation returned the
operation's value. -/
def waiterOk (f : Nat) (w : Waiter) : Prop :=
  (w.tmp = none ∨ w.tmp = some f) ∧
    (w.pc = .start → w.tmp = none) ∧
    (w.pc = .missed → w.tmp = none) ∧
    (w.pc = .computed → w.tmp = some f) ∧
    (w.pc = .done → w.ret = some f)

/-- Invariant of the two-caller machine: the cache holds nothing or the
operation's value, both invocations are sound, and `calls` counts exactly the
invocations that ran the operation (those whose `tmp` is set). -/
def memoOk (f : Nat) (s : MemoState) : Prop :=
  (s.cache = none ∨ s.cache = some f) ∧
    waiterOk f s.a ∧ waiterOk f s.b ∧
    s.calls = (if s.a.tmp.isSome then 1 else 0) + (if s.b.tmp.isSome then 1 else 0)

instance (t : Timestamp) : Decidable (ValidTimestamp t) := by
  unfold ValidTimestamp
  infer_instance

/-- The claim's reading of `get_keys` (spec §6): the union, de-duplicated and
sorted, of the raw keys *matching the pattern* — glob matching, the
convention every tier's pattern language in this service is based on —
across the three tiers.  Written for comparison with `get_keys`; it differs
from the code only in the memory tier's matching. -/
def get_keys_spec (env : CacheEnv) (pattern : String) (namespace_ : Option String) :
    List String :=
  let pat := patternWithNamespace pattern namespace_
  let memKeys := (env.memoryKeys.filter (fun k => globMatch pat k)).map stripNamespace
  let redisKeys := match env.redis with
    | none => []
    | some db =>
      ((db.filter (fun k => globMatch pat k.raw)).filterMap
        (fun k => match k.decoded with
          | .ok s => some s
          | .error _ => none)).map stripNamespace
  let fileKeys := (match env.cacheDirFiles with
    | .error _ => []
    | .ok fs => fs.filter (fun b => globMatch (pat ++ ".cache") b)).map fileRawKey
  pySortedSet (memKeys ++ redisKeys ++ fileKeys)

/-!
## Properties of the string order and of `sorted`
-/

theorem charListLe_refl (l : List Char) : charListLe l l = true := by
  induction l with
  | nil => rfl
  | cons a as ih => simp [charListLe, Nat.lt_irrefl, ih]

theorem charListLe_cons_iff {x y : Char} {xs ys : List Char} :
    charListLe (x :: xs) (y :: ys) = true ↔
      (x.toNat < y.toNat ∨ (x.toNat = y.toNat ∧ charListLe xs ys = true)) := by
  simp only [charListLe]
  split_ifs with h1 h2
  · simp [h1]
  · constructor
    · intro h; cases h
    · intro h; rcases h with h | ⟨h, _⟩ <;> omega
  · have hxy : x.toNat = y.toNat := by omega
    simp [hxy, Nat.lt_irrefl]

theorem charListLe_total (a b : List Char) :
    charListLe a b = true ∨ charListLe b a = true := by
  induction a generalizing b with
  | nil => left; rfl
  | cons x xs ih =>
    cases b with
    | nil => right; rfl
    | cons y ys =>
      rcases Nat.lt_trichotomy x.toNat y.toNat with h | h | h
      · left; exact charListLe_cons_iff.mpr (Or.inl h)
      · rcases ih ys with h' | h'
        · left; exact charListLe_cons_iff.mpr (Or.inr ⟨h, h'⟩)
        · right; exact charListLe_cons_iff.mpr (Or.inr ⟨h.symm, h'⟩)
      · right; exact charListLe_cons_iff.mpr (Or.inl h)

theorem charListLe_trans {a b c : List Char} (hab : charListLe a b = true)
    (hbc : charListLe b c = true) : charListLe a c = true := by
  induction a generalizing b c with
  | nil => rfl
  | cons x xs ih =>
    cases b with
    | nil => simp [charListLe] at hab
    | cons y ys =>
      cases c with
      | nil => simp [charListLe] at hbc
      | cons z zs =>
        rcases charListLe_cons_iff.mp hab with h1 | ⟨h1, h1'⟩ <;>
          rcases charListLe_cons_iff.mp hbc with h2 | ⟨h2, h2'⟩
        · exact charListLe_cons_iff.mpr (Or.inl (h1.trans h2))
        · exact charListLe_cons_iff.mpr (Or.inl (h2 ▸ h1))
        · exact charListLe_cons_iff.mpr (Or.inl (h1 ▸ h2))
        · exact charListLe_cons_iff.mpr (Or.inr ⟨h1.trans h2, ih h1' h2'⟩)

theorem pyStrLe_refl (s : String) : pyStrLe s s = true := charListLe_refl s.data

theorem pyStrLe_total (s t : String) : pyStrLe s t = true ∨ pyStrLe t s = true :=
  charListLe_total s.data t.data

theorem pyStrLe_trans {s t u : String} (h1 : pyStrLe s t = true)
    (h2 : pyStrLe t u = true) : pyStrLe s u = true :=
  charListLe_trans h1 h2

theorem mem_sortedInsert (le : α → α → Bool) (a x : α) (l : List α) :
    x ∈ sortedInsert le a l ↔ x = a ∨ x ∈ l := by
  induction l with
  | nil => simp [sortedInsert]
  | cons b bs ih =>
    simp only [sortedInsert]
    split_ifs with h
    · simp [List.mem_cons]
    · simp only [List.mem_cons, ih]
      tauto

theorem sortedInsert_perm (le : α → α → Bool) (a : α) (l : List α) :
    (sortedInsert le a l).Perm (a :: l) := by
  induction l with
  | nil => exact List.Perm.refl _
  | cons b bs ih =>
    simp only [sortedInsert]
    split_ifs with h
    · exact List.Perm.refl _
    · exact (ih.cons b).trans (List.Perm.swap a b bs)

theorem pySorted_perm (le : α → α → Bool) (l : List α) :
    (pySorted le l).Perm l := by
  induction l with
  | nil => exact List.Perm.refl _
  | cons a as ih =>
    exact (sortedInsert_perm le a (pySorted le as)).trans (ih.cons a)

theorem pairwise_sortedInsert (le : α → α → Bool)
    (htrans : ∀ x y z, le x y = true → le y z = true → le x z = true)
    (htot : ∀ x y, le x y = true ∨ le y x = true)
    (a : α) (l : List α) (h : l.Pairwise (fun x y => le x y = true)) :
    (sortedInsert le a l).Pairwise (fun x y => le x y = true) := by
  induction l with
  | nil => simp [sortedInsert]
  | cons b bs ih =>
    simp only [sortedInsert]
    rcases List.pairwise_cons.mp h with ⟨hb, hbs⟩
    split_ifs with hab
    · refine List.pairwise_cons.mpr ⟨?_, h⟩
      intro x hx
      rcases List.mem_cons.mp hx with rfl | hx
      · exact hab
      · exact htrans a b x hab (hb x hx)
    · refine List.pairwise_cons.mpr ⟨?_, ih hbs⟩
      intro x hx
      rcases (mem_sortedInsert le a x bs).mp hx with rfl | hx
      · rcases htot x b with h' | h'
        · exact absurd h' hab
        · exact h'
      · exact hb x hx

theorem pairwise_pySorted (le : α → α → Bool)
    (htrans : ∀ x y z, le x y = true → le y z = true → le x z = true)
    (htot : ∀ x y, le x y = true ∨ le y x = true) (l : List α) :
    (pySorted le l).Pairwise (fun x y => le x y = true) := by
  induction l with
  | nil => simp [pySorted]
  | cons a as ih => exact pairwise_sortedInsert le htrans htot a _ ih

theorem pairwise_getLast?_bound {R : α → α → Prop} :
    ∀ {l : List α} {m : α}, l.Pairwise R → l.getLast? = some m →
      ∀ x ∈ l, x = m ∨ R x m
  | [], m, _, hm => by simp at hm
  | [a], m, _, hm => by
    intro x hx
    simp only [List.getLast?_singleton, Option.some.injEq] at hm
    simp only [List.mem_singleton] at hx
    exact Or.inl (hx.trans hm)
  | a :: b :: l, m, hp, hm => by
    intro x hx
    rw [List.getLast?_cons_cons] at hm
    have hmem : m ∈ b :: l := by
      rcases List.mem_getLast?_eq_getLast (by rw [hm]; rfl) with ⟨hne, heq⟩
      exact heq ▸ List.getLast_mem hne
    rcases List.mem_cons.mp hx with rfl | hx
    · exact Or.inr ((List.pairwise_cons.mp hp).1 m hmem)
    · exact pairwise_getLast?_bound hp.tail hm x hx

/-- Python's `sorted(l)[-1]` on a nonempty string list is a maximum of `l`. -/
theorem pySortedLast_spec {l : List String} (h : l ≠ []) :
    ∃ m, pySortedLast l = some m ∧ m ∈ l ∧ ∀ x ∈ l, pyStrLe x m = true := by
  have hperm : (pySortedStr l).Perm l := pySorted_perm pyStrLe l
  have hne : pySortedStr l ≠ [] := by
    intro hnil
    exact h (List.Perm.nil_eq (hnil ▸ hperm)).symm
  cases hs : (pySortedStr l).getLast? with
  | none => exact absurd (List.getLast?_eq_none_iff.mp hs) hne
  | some m =>
    refine ⟨m, hs, ?_, ?_⟩
    · exact hperm.mem_iff.mp (by
        rcases List.mem_getLast?_eq_getLast (by rw [hs]; rfl) with ⟨hne', heq⟩
        exact heq ▸ List.getLast_mem hne')
    · intro x hx
      have hx' : x ∈ pySortedStr l := hperm.mem_iff.mpr hx
      have hpw := pairwise_pySorted pyStrLe
        (fun _ _ _ => pyStrLe_trans) pyStrLe_total l
      rcases pairwise_getLast?_bound hpw hs x hx' with rfl | hle
      · exact pyStrLe_refl x
      · exact hle

/-- Membership in `pySortedSet`. -/
theorem mem_pySortedSet {x : String} {l : List String} :
    x ∈ pySortedSet l ↔ x ∈ l := by
  unfold pySortedSet pySortedStr
  rw [(pySorted_perm pyStrLe l.dedup).mem_iff]
  exact List.mem_dedup

/-- `pySortedSet` never holds duplicates. -/
theorem nodup_pySortedSet (l : List String) : (pySortedSet l).Nodup :=
  ((pySorted_perm pyStrLe l.dedup).symm.nodup (List.nodup_dedup l))

/-- `pySortedSet` is ascending. -/
theorem sorted_pySortedSet (l : List String) :
    (pySortedSet l).Pairwise (fun x y => pyStrLe x y = true) :=
  pairwise_pySorted pyStrLe (fun _ _ _ => pyStrLe_trans) pyStrLe_total l.dedup

/-!
## Snapshot names: lexicographic order agrees with chronological order

`backup` stamps snapshot names with `strftime('%Y%m%d_%H%M%S')` — fixed-width,
zero-padded fields in most-significant-first order — so Python's string sort
on equally-prefixed names is exactly chronological order.
-/

theorem charListLe_append_left (p x y : List Char) :
    charListLe (p ++ x) (p ++ y) = charListLe x y := by
  induction p with
  | nil => rfl
  | cons a as ih => simp [charListLe, Nat.lt_irrefl, ih]

theorem charListLe_cons_same (c : Char) (x y : List Char) :
    charListLe (c :: x) (c :: y) = charListLe x y := by
  simp [charListLe, Nat.lt_irrefl]

/-- A strictly smaller block of the same width decides the comparison whatever
follows it. -/
theorem charListLe_append_false :
    ∀ {x y : List Char}, x.length = y.length → charListLt x y = true →
      ∀ (r1 r2 : List Char), charListLe (y ++ r2) (x ++ r1) = false
  | [], [], _, hlt => by simp [charListLt] at hlt
  | [], _ :: _, hlen, _ => by simp at hlen
  | _ :: _, [], hlen, _ => by simp at hlen
  | a :: as, b :: bs, hlen, hlt => by
    intro r1 r2
    simp only [List.length_cons, Nat.succ.injEq] at hlen
    simp only [charListLt] at hlt
    simp only [List.cons_append, charListLe]
    rcases Nat.lt_trichotomy a.toNat b.toNat with h | h | h
    · simp [h, Nat.lt_asymm h]
    · simp only [h, Nat.lt_irrefl, if_false] at hlt ⊢
      exact charListLe_append_false hlen hlt r1 r2
    · simp [h, Nat.lt_asymm h] at hlt

set_option maxRecDepth 2000 in
theorem pad2_lt_all : ∀ b < 100, ∀ a < b, charListLt (pad2 a) (pad2 b) = true := by
  decide

theorem pad2_length (n : Nat) : (pad2 n).length = 2 := rfl

/-- The printed snapshot name, with the character list fully
right-associated. -/
theorem snapshotName_data (pre suf : String) (t : Timestamp) :
    (snapshotName pre t suf).data =
      pre.data ++ (pad2 (t.year / 100) ++ (pad2 (t.year % 100) ++ (pad2 t.month ++
        (pad2 t.day ++ ('_' :: (pad2 t.hour ++ (pad2 t.minute ++
          (pad2 t.second ++ suf.data)))))))) := by
  simp only [snapshotName, String.data_append, fmtTimestamp, fmtTimestampChars,
    pad4, List.append_assoc, List.cons_append]

/-- Compare one base-100 digit position. -/
theorem base100_lt {A a B b : Nat} (ha : a < 100) (hb : b < 100)
    (h : A * 100 + a < B * 100 + b) : A < B ∨ (A = B ∧ a < b) := by omega

/-- Split an equality at one base-100 digit position. -/
theorem base100_eq {A a B b : Nat} (ha : a < 100) (hb : b < 100)
    (h : A * 100 + a = B * 100 + b) : A = B ∧ a = b := by omega

/-- Chronologically later snapshot names are strictly later in Python's string
order: the reversed comparison is false. -/
theorem snapshotName_le_false (pre suf : String) {t t' : Timestamp}
    (h : ValidTimestamp t) (h' : ValidTimestamp t')
    (hk : chronoKey t < chronoKey t') :
    pyStrLe (snapshotName pre t' suf) (snapshotName pre t suf) = false := by
  obtain ⟨hy, hmo, hd, hh, hmi, hs⟩ := h
  obtain ⟨hy', hmo', hd', hh', hmi', hs'⟩ := h'
  have hq' : t'.year / 100 < 100 := by omega
  have hr' : t'.year % 100 < 100 := by omega
  unfold chronoKey at hk
  unfold pyStrLe
  rw [snapshotName_data, snapshotName_data, charListLe_append_left]
  rcases base100_lt hs hs' hk with h5 | ⟨e5, hc⟩
  · rcases base100_lt hmi hmi' h5 with h4 | ⟨e4, hc⟩
    · rcases base100_lt hh hh' h4 with h3 | ⟨e3, hc⟩
      · rcases base100_lt hd hd' h3 with h2 | ⟨e2, hc⟩
        · rcases base100_lt hmo hmo' h2 with h1 | ⟨e1, hc⟩
          · -- the years differ
            rcases (by omega :
                t.year / 100 < t'.year / 100 ∨
                  (t.year / 100 = t'.year / 100 ∧
                    t.year % 100 < t'.year % 100)) with hc | ⟨e0, hc⟩
            · exact charListLe_append_false ((pad2_length _).trans (pad2_length _).symm) (pad2_lt_all _ hq' _ hc) _ _
            · rw [e0, charListLe_append_left]
              exact charListLe_append_false ((pad2_length _).trans (pad2_length _).symm) (pad2_lt_all _ hr' _ hc) _ _
          · -- the months differ
            rw [e1, charListLe_append_left, charListLe_append_left]
            exact charListLe_append_false ((pad2_length _).trans (pad2_length _).symm) (pad2_lt_all _ hmo' _ hc) _ _
        · -- the days differ
          obtain ⟨e1, emo⟩ := base100_eq hmo hmo' e2
          rw [e1, emo, charListLe_append_left, charListLe_append_left,
            charListLe_append_left]
          exact charListLe_append_false ((pad2_length _).trans (pad2_length _).symm) (pad2_lt_all _ hd' _ hc) _ _
      · -- the hours differ
        obtain ⟨e2, ed⟩ := base100_eq hd hd' e3
        obtain ⟨e1, emo⟩ := base100_eq hmo hmo' e2
        rw [e1, emo, ed, charListLe_append_left, charListLe_append_left,
          charListLe_append_left, charListLe_append_left, charListLe_cons_same]
        exact charListLe_append_false ((pad2_length _).trans (pad2_length _).symm) (pad2_lt_all _ hh' _ hc) _ _
    · -- the minutes differ
      obtain ⟨e3, eh⟩ := base100_eq hh hh' e4
      obtain ⟨e2, ed⟩ := base100_eq hd hd' e3
      obtain ⟨e1, emo⟩ := base100_eq hmo hmo' e2
      rw [e1, emo, ed, eh, charListLe_append_left, charListLe_append_left,
        charListLe_append_left, charListLe_append_left, charListLe_cons_same,
        charListLe_append_left]
      exact charListLe_append_false ((pad2_length _).trans (pad2_length _).symm) (pad2_lt_all _ hmi' _ hc) _ _
  · -- the seconds differ
    obtain ⟨e4, emi⟩ := base100_eq hmi hmi' e5
    obtain ⟨e3, eh⟩ := base100_eq hh hh' e4
    obtain ⟨e2, ed⟩ := base100_eq hd hd' e3
    obtain ⟨e1, emo⟩ := base100_eq hmo hmo' e2
    rw [e1, emo, ed, eh, emi, charListLe_append_left, charListLe_append_left,
      charListLe_append_left, charListLe_append_left, charListLe_cons_same,
      charListLe_append_left, charListLe_append_left]
    exact charListLe_append_false ((pad2_length _).trans (pad2_length _).symm) (pad2_lt_all _ hs' _ hc) _ _

/-!
## Claims
-/

/-- C4: `get_stats` reports `hit_rate = hits / (hits + misses)` (exact over ℚ),
and reports `0` — without any division — whenever zero requests have been
made. -/
theorem C4_get_stats_hit_rate (s : CacheStats) (memory_len : Nat)
    (dirListing : Except Unit (List (String × Nat))) (lc : StatVal) :
    (get_stats s memory_len dirListing lc).hit_rate =
        (s.hits : ℚ) / ((s.hits + s.misses : Nat) : ℚ) ∧
      (s.hits + s.misses = 0 →
        (get_stats s memory_len dirListing lc).hit_rate = 0) := by
  constructor
  · by_cases h : 0 < s.hits + s.misses
    · simp [get_stats, h]
    · have h0 : s.hits + s.misses = 0 := by omega
      have hh : s.hits = 0 := by omega
      simp [get_stats, h0, hh]
  · intro h0
    have hh : s.hits = 0 := by omega
    simp [get_stats, h0, hh]

theorem C4_get_stats_hit_rate_witness :
    (get_stats ⟨0, 0, 0, 0, 0⟩ 0 (.ok []) (.int 0)).hit_rate = 0 :=
  (C4_get_stats_hit_rate ⟨0, 0, 0, 0, 0⟩ 0 (.ok []) (.int 0)).2 rfl

/-- C6: the value `get_stats` stores under `redis_cache_size` is the coroutine
object produced by calling the `async` method `_get_redis_size` without
`await` — never an integer key count, even with a reachable remote tier. -/
theorem C6_redis_size_is_coroutine (s : CacheStats) (memory_len : Nat)
    (dirListing : Except Unit (List (String × Nat))) (lc : StatVal) :
    (get_stats s memory_len dirListing lc).redis_cache_size =
        StatVal.coroutine "_get_redis_size" ∧
      ((get_stats s memory_len dirListing lc).redis_cache_size).isInt = false := by
  exact ⟨rfl, rfl⟩

/-- C7: `health_check` always reports the memory tier healthy; an unconfigured
or unreachable remote tier is reported unhealthy (the helpers swallow their
exceptions, so nothing is raised); with no remote configured and a working
file system the result is `\x7bmemory: true, file: true, redis: false\x7d`. -/
theorem C7_health_check (env : HealthEnv) :
    (health_check env).memory = true ∧
      (env.redis = none → (health_check env).redis = false) ∧
      (∀ e, env.redis = some (.error e) → (health_check env).redis = false) ∧
      (env.fileSentinel = .ok () → env.redis = none →
        health_check env = ⟨true, true, false⟩) := by
  refine ⟨rfl, ?_, ?_, ?_⟩
  · intro h
    simp [health_check, _check_redis, h]
  · intro e h
    simp [health_check, _check_redis, h]
  · intro hf hr
    simp [health_check, _check_redis, _check_file_system, hf, hr]

theorem C7_health_check_witness :
    health_check ⟨.ok (), none⟩ = ⟨true, true, false⟩ :=
  (C7_health_check ⟨.ok (), none⟩).2.2.2 rfl rfl

/-- Characters before an appended `':'` are recovered exactly when none of
them is a colon. -/
theorem takeWhile_until_colon (l r : List Char) (h : ∀ c ∈ l, c ≠ ':') :
    (l ++ ':' :: r).takeWhile (fun c => c ≠ ':') = l := by
  induction l with
  | nil => simp
  | cons c cs ih =>
    have hc : c ≠ ':' := h c (by simp)
    have ih' := ih (fun x hx => h x (by simp [hx]))
    simp only [List.cons_append, List.takeWhile_cons, decide_not] at ih' ⊢
    simp [hc, ih']

/-- A `containsColon = false` string is colon-free characterwise. -/
theorem containsColon_false_iff (s : String) :
    containsColon s = false ↔ ∀ c ∈ s.data, c ≠ ':' := by
  simp [containsColon]

/-- The characters of a derived wrapper key. -/
theorem cached_key_data (f : PyFunc) (args : List PyVal)
    (kwargs : List (String × PyVal)) :
    (cached_key f args kwargs).data =
      f.name.data ++ ':' ::
        ((pyStrTuple args).data ++ ':' :: (pyStrDict kwargs).data) := by
  simp [cached_key, String.data_append]

/-- The text before the first colon of a derived key is exactly the wrapped
function's `__name__` (Python identifiers hold no colon). -/
theorem beforeFirstColon_cached_key (f : PyFunc) (args : List PyVal)
    (kwargs : List (String × PyVal)) (h : containsColon f.name = false) :
    beforeFirstColon (cached_key f args kwargs) = f.name := by
  apply String.ext
  show ((cached_key f args kwargs).data.takeWhile (fun c => c ≠ ':')) = _
  rw [cached_key_data]
  exact takeWhile_until_colon _ _ ((containsColon_false_iff f.name).mp h)

/-- C5 counterexample: the claim says calls differing in operation identity
derive distinct keys, but the key derivation reads only `__name__`: two
distinct operations that share a bare name (here, an `analyze` in two
different modules) derive the same key for the same arguments. -/
theorem C5_distinct_identity_same_key :
    (⟨"src.core.services.nlp_service", "analyze"⟩ : PyFunc) ≠
        ⟨"src.core.services.image_analysis_service", "analyze"⟩ ∧
      cached_key ⟨"src.core.services.nlp_service", "analyze"⟩
          [PyVal.str "text"] [] =
        cached_key ⟨"src.core.services.image_analysis_service", "analyze"⟩
          [PyVal.str "text"] [] := by
  exact ⟨by decide, rfl⟩

/-- C5 amended: the derivation is stable — the key is a function of
`(__name__, str(args), str(kwargs))` alone, so equivalent calls agree and
same-named operations in different modules collide — and it does separate
operations whose (colon-free) `__name__`s differ. -/
theorem C5_key_stability (f g : PyFunc) (args1 args2 : List PyVal)
    (kw1 kw2 : List (String × PyVal)) :
    (f.name = g.name → args1 = args2 → kw1 = kw2 →
      cached_key f args1 kw1 = cached_key g args2 kw2) ∧
    (f.name ≠ g.name → containsColon f.name = false →
      containsColon g.name = false →
      cached_key f args1 kw1 ≠ cached_key g args2 kw2) := by
  constructor
  · intro hn ha hk
    simp [cached_key, hn, ha, hk]
  · intro hn hf hg heq
    apply hn
    have h1 := beforeFirstColon_cached_key f args1 kw1 hf
    have h2 := beforeFirstColon_cached_key g args2 kw2 hg
    rw [← h1, ← h2, heq]

theorem C5_key_stability_witness :
    cached_key ⟨"module_a", "analyze"⟩ [PyVal.int 1] [] =
        cached_key ⟨"module_b", "analyze"⟩ [PyVal.int 1] [] ∧
      cached_key ⟨"m", "analyze"⟩ [] [] ≠ cached_key ⟨"m", "translate"⟩ [] [] :=
  ⟨(C5_key_stability ⟨"module_a", "analyze"⟩ ⟨"module_b", "analyze"⟩
      [PyVal.int 1] [PyVal.int 1] [] []).1 rfl rfl rfl,
    (C5_key_stability ⟨"m", "analyze"⟩ ⟨"m", "translate"⟩ [] [] [] []).2
      (by decide) (by decide) (by decide)⟩

theorem wrapperStep_ok (f : Nat) (cache : Option Nat) (calls : Nat) (w : Waiter)
    (hc : cache = none ∨ cache = some f) (hw : waiterOk f w) :
    ((wrapperStep f cache calls w).1 = none ∨
        (wrapperStep f cache calls w).1 = some f) ∧
      waiterOk f (wrapperStep f cache calls w).2.2 ∧
      (wrapperStep f cache calls w).2.1 + (if w.tmp.isSome then 1 else 0) =
        calls + (if (wrapperStep f cache calls w).2.2.tmp.isSome then 1 else 0) := by
  obtain ⟨hw1, hw0, hwm, hw2, hw3⟩ := hw
  cases hpc : w.pc with
  | start =>
    have htmp : w.tmp = none := hw0 hpc
    cases hcc : cache with
    | none => simp [wrapperStep, hpc, hcc, waiterOk, htmp]
    | some v =>
      have hv : v = f := by
        rcases hc with h | h
        · simp [hcc] at h
        · simp [hcc] at h; exact h
      subst hv
      simp [wrapperStep, hpc, hcc, waiterOk, htmp]
  | missed =>
    have htmp : w.tmp = none := hwm hpc
    refine ⟨by simpa [wrapperStep, hpc] using hc, ?_, ?_⟩
    · simp [wrapperStep, hpc, waiterOk]
    · simp [wrapperStep, hpc, htmp]
  | computed =>
    have htmp : w.tmp = some f := hw2 hpc
    refine ⟨by simp [wrapperStep, hpc, htmp], ?_, ?_⟩
    · simp [wrapperStep, hpc, waiterOk, htmp]
    · simp [wrapperStep, hpc, htmp]
  | done =>
    refine ⟨by simpa [wrapperStep, hpc] using hc, ?_, ?_⟩
    · simp only [wrapperStep, hpc]
      exact ⟨hw1, hw0, hwm, hw2, hw3⟩
    · simp [wrapperStep, hpc]

theorem memoStep_ok (f : Nat) (s : MemoState) (w : Bool) (h : memoOk f s) :
    memoOk f (memoStep f s w) := by
  obtain ⟨hc, ha, hb, hcalls⟩ := h
  cases w with
  | true =>
    obtain ⟨h1, h2, h3⟩ := wrapperStep_ok f s.cache s.calls s.a hc ha
    refine ⟨by simpa [memoStep] using h1, by simpa [memoStep] using h2,
      by simpa [memoStep] using hb, ?_⟩
    simp only [memoStep, if_true]
    omega
  | false =>
    obtain ⟨h1, h2, h3⟩ := wrapperStep_ok f s.cache s.calls s.b hc hb
    refine ⟨by simpa [memoStep] using h1, by simpa [memoStep] using ha,
      by simpa [memoStep] using h2, ?_⟩
    simp only [memoStep, Bool.false_eq_true, if_false]
    omega

theorem memoRun_ok (f : Nat) (sched : List Bool) : memoOk f (memoRun f sched) := by
  have hinit : memoOk f memoInit := by
    refine ⟨Or.inl rfl, ?_, ?_, rfl⟩ <;>
      exact ⟨Or.inl rfl, fun _ => rfl, fun h => by simp [memoInit] at h,
        fun h => by simp [memoInit] at h, fun h => by simp [memoInit] at h⟩
  rw [memoRun]
  generalize memoInit = s at hinit ⊢
  induction sched generalizing s with
  | nil => exact hinit
  | cons w ws ih => exact ih (memoStep f s w) (memoStep_ok f s w hinit)

/-- C2 counterexample: for the uncached key, the interleaving in which both
invocations run their `get` before either runs the operation (A.get, B.get,
A.func, A.set, B.func, B.set) completes both callers yet runs the wrapped
operation twice — the claim's "exactly once" is false, and there is no
in-flight registry to prevent it. -/
theorem C2_stampede_counterexample :
    (memoRun 7 [true, false, true, true, false, false]).calls = 2 ∧
      (memoRun 7 [true, false, true, true, false, false]).a.pc = .done ∧
      (memoRun 7 [true, false, true, true, false, false]).b.pc = .done ∧
      ¬ (memoRun 7 [true, false, true, true, false, false]).calls = 1 := by
  decide

/-- C2 amended: `cached` keeps no in-flight registry, so two concurrent
invocations for an uncached key may run the wrapped operation up to twice
(once per invocation, never more); every completed invocation still returns
the deterministic operation's value, so all callers observe the same result;
and when the second invocation starts only after the first finished, the
operation runs exactly once. -/
theorem C2_memoized_wrapper (f : Nat) (sched : List Bool) :
    (memoRun f sched).calls ≤ 2 ∧
      ((memoRun f sched).a.pc = .done → (memoRun f sched).a.ret = some f) ∧
      ((memoRun f sched).b.pc = .done → (memoRun f sched).b.ret = some f) ∧
      (memoRun f [true, true, true, false]).calls = 1 ∧
      (memoRun f [true, true, true, false]).a.ret = some f ∧
      (memoRun f [true, true, true, false]).b.ret = some f := by
  obtain ⟨hc, ⟨_, _, _, _, ha⟩, ⟨_, _, _, _, hb⟩, hcalls⟩ := memoRun_ok f sched
  refine ⟨?_, ha, hb, rfl, rfl, rfl⟩
  rw [hcalls]
  split_ifs <;> omega

theorem C2_memoized_wrapper_witness :
    (memoRun 5 [true, false, true, true, false, false]).a.ret = some 5 ∧
      (memoRun 5 [true, false, true, true, false, false]).b.ret = some 5 :=
  ⟨(C2_memoized_wrapper 5 [true, false, true, true, false, false]).2.1 (by decide),
    (C2_memoized_wrapper 5 [true, false, true, true, false, false]).2.2.1 (by decide)⟩

/-- C1 (modelled from the spec, `get`/`set` being elided from the source
file): for every key, value and `ttl > 0`, `set(key, value, ttl)` immediately
followed by the same caller's `get(key)` in the same namespace returns the
value — the freshly written entry is most-recently-used, so it survives the
eviction step (which removes from the least-recently-used end), and
`now + ttl > now` keeps it unexpired at the same instant. -/
theorem C1_set_then_get {α : Type} (c : SpecCache α) (key : String) (v : α)
    (ttl : Nat) (ns : String) (httl : 0 < ttl) :
    (spec_get (spec_set c key v (some ttl) ns) key ns).1 = some v := by
  have hfind : (memInsert c (canonicalKey ns key)
      ⟨v, c.now, some (c.now + ttl)⟩).find?
        (fun kv => kv.1 == canonicalKey ns key) =
      some (canonicalKey ns key, ⟨v, c.now, some (c.now + ttl)⟩) := by
    unfold memInsert
    rw [List.find?_append]
    have hnone :
        (if c.capacity ≤
            (c.memory.filter (fun kv => kv.1 != canonicalKey ns key)).length
          then (c.memory.filter (fun kv => kv.1 != canonicalKey ns key)).tail
          else c.memory.filter (fun kv => kv.1 != canonicalKey ns key)).find?
          (fun kv => kv.1 == canonicalKey ns key) = none := by
      apply List.find?_eq_none.mpr
      intro x hx
      have hx' : x ∈ c.memory.filter (fun kv => kv.1 != canonicalKey ns key) := by
        split_ifs at hx with h
        · exact List.mem_of_mem_tail hx
        · exact hx
      have hne := (List.mem_filter.mp hx').2
      simp only [bne_iff_ne, ne_eq] at hne
      simp [hne]
    rw [hnone]
    simp
  have hexp : specExpired c.now ⟨v, c.now, some (c.now + ttl)⟩ = false := by
    simp only [specExpired]
    simp only [decide_eq_false_iff_not]
    omega
  show (spec_get (spec_set c key v (some ttl) ns) key ns).1 = some v
  unfold spec_get
  have hm : (spec_set c key v (some ttl) ns).memory =
      memInsert c (canonicalKey ns key) ⟨v, c.now, some (c.now + ttl)⟩ := rfl
  have hn : (spec_set c key v (some ttl) ns).now = c.now := rfl
  rw [hm, hn]
  simp [hfind, hexp]

theorem C1_set_then_get_witness :
    (spec_get
        (spec_set (⟨8, 100, [], []⟩ : SpecCache String) "claim:123" "VERIFIED"
          (some 60) "factcheck")
        "claim:123" "factcheck").1 = some "VERIFIED" :=
  C1_set_then_get ⟨8, 100, [], []⟩ "claim:123" "VERIFIED" 60 "factcheck"
    (by decide)

/-- C3 counterexample: `restore` is not staged.  First scenario: the backup
directory holds a memory snapshot but no `file_cache_*` snapshot, so the call
fails *after* `self.memory_cache` was already replaced — the previously live
state is changed by a failing restore.  Second scenario: both snapshots
present but `copytree` fails; the live cache directory has already been
`rmtree`d, so the failing call leaves the file tier gone. -/
theorem C3_restore_not_atomic_counterexample :
    (restore_run ⟨[("default:k", "old")], some [("default:k", "x")]⟩
          ⟨["memory_cache_20250101_000000.pkl"],
            [("memory_cache_20250101_000000.pkl", [("default:k", "new")])], []⟩
          false false false false).1 = Except.error () ∧
      (restore_run ⟨[("default:k", "old")], some [("default:k", "x")]⟩
          ⟨["memory_cache_20250101_000000.pkl"],
            [("memory_cache_20250101_000000.pkl", [("default:k", "new")])], []⟩
          false false false false).2 ≠
        ⟨[("default:k", "old")], some [("default:k", "x")]⟩ ∧
      (restore_run ⟨[("default:k", "old")], some [("default:k", "x")]⟩
          ⟨["memory_cache_20250101_000000.pkl", "file_cache_20250101_000000"],
            [("memory_cache_20250101_000000.pkl", [("default:k", "new")])],
            [("file_cache_20250101_000000", [("default:k", "y")])]⟩
          false false true false).1 = Except.error () ∧
      (restore_run ⟨[("default:k", "old")], some [("default:k", "x")]⟩
          ⟨["memory_cache_20250101_000000.pkl", "file_cache_20250101_000000"],
            [("memory_cache_20250101_000000.pkl", [("default:k", "new")])],
            [("file_cache_20250101_000000", [("default:k", "y")])]⟩
          false false true false).2.cache_dir = none := by
  decide

/-- C3 amended: `restore` mutates the live state in place rather than staging
and swapping.  Only a failure before the memory pickle is loaded (no
`memory_cache_*` snapshot, or a failing load) leaves the previously live
state untouched; once staging proceeds, a failure at the `copytree` step
leaves the memory tier already replaced by the snapshot and the live cache
directory deleted. -/
theorem C3_restore_in_place (st : LiveState) (b : BackupDir) (rc : Bool) :
    (selectSnapshot "memory_cache_" b.files = none →
      ∀ lf rf cf, restore_run st b lf rf cf rc = (Except.error (), st)) ∧
      (∀ m, selectSnapshot "memory_cache_" b.files = some m →
        ∀ rf cf, restore_run st b true rf cf rc = (Except.error (), st)) ∧
      (∀ m fdir, selectSnapshot "memory_cache_" b.files = some m →
        selectSnapshot "file_cache_" b.files = some fdir →
        (restore_run st b false false true rc).1 = Except.error () ∧
        (restore_run st b false false true rc).2 =
          ⟨((b.pickles.find? (fun p => p.1 == m)).map (·.2)).getD [], none⟩) := by
  refine ⟨?_, ?_, ?_⟩
  · intro hsel lf rf cf
    simp [restore_run, hsel]
  · intro m hsel rf cf
    simp [restore_run, hsel]
  · intro m fdir hm hf
    simp [restore_run, hm, hf]

theorem C3_restore_in_place_witness :
    restore_run ⟨[("k", "v")], some []⟩ ⟨[], [], []⟩ false false false false =
      (Except.error (), ⟨[("k", "v")], some []⟩) :=
  (C3_restore_in_place ⟨[("k", "v")], some []⟩ ⟨[], [], []⟩ false).1 rfl
    false false false

/-- C9: among the snapshot files with the given prefix present in the backup
directory (named by `backup`'s `prefix + strftime('%Y%m%d_%H%M%S') + suffix`
convention), `restore`'s selection `sorted(filtered)[-1]` picks one carrying
the chronologically latest creation timestamp: the fixed-width, zero-padded,
most-significant-first format makes Python's string sort agree with time
order. -/
theorem C9_restore_selects_latest (pre suf : String) (files : List String)
    (ts : List Timestamp) (hvalid : ∀ t ∈ ts, ValidTimestamp t) (hne : ts ≠ [])
    (hfiles : files.filter (fun f => pyStartsWith f pre) =
      ts.map (fun u => snapshotName pre u suf)) :
    ∃ t ∈ ts, selectSnapshot pre files = some (snapshotName pre t suf) ∧
      ∀ u ∈ ts, chronoKey u ≤ chronoKey t := by
  unfold selectSnapshot
  rw [hfiles]
  have hmapne : ts.map (fun u => snapshotName pre u suf) ≠ [] := by
    simpa using hne
  obtain ⟨m, hsel, hmem, hbound⟩ := pySortedLast_spec hmapne
  obtain ⟨t, hts, heq⟩ := List.mem_map.mp hmem
  refine ⟨t, hts, by rw [hsel, heq], ?_⟩
  intro u hu
  by_contra hlt
  push_neg at hlt
  have hfalse := snapshotName_le_false pre suf (hvalid t hts) (hvalid u hu) hlt
  have htrue := hbound (snapshotName pre u suf) (List.mem_map_of_mem _ hu)
  rw [← heq] at htrue
  simp [hfalse] at htrue

theorem C9_restore_selects_latest_witness :
    ∃ t ∈ [(⟨2024, 12, 31, 23, 59, 59⟩ : Timestamp), ⟨2025, 1, 1, 0, 0, 0⟩],
      selectSnapshot "memory_cache_"
          ["file_cache_20250101_000000", "memory_cache_20241231_235959.pkl",
            "memory_cache_20250101_000000.pkl"] =
        some (snapshotName "memory_cache_" t ".pkl") ∧
      ∀ u ∈ [(⟨2024, 12, 31, 23, 59, 59⟩ : Timestamp), ⟨2025, 1, 1, 0, 0, 0⟩],
        chronoKey u ≤ chronoKey t :=
  C9_restore_selects_latest "memory_cache_" ".pkl"
    ["file_cache_20250101_000000", "memory_cache_20241231_235959.pkl",
      "memory_cache_20250101_000000.pkl"]
    [⟨2024, 12, 31, 23, 59, 59⟩, ⟨2025, 1, 1, 0, 0, 0⟩]
    (by decide) (by decide) (by decide)


/-- C8 counterexample: the memory tier does not glob-match — it tests
`startswith(pattern.replace('*', ''))`.  For the pattern `a*c`, the memory
key `abc` glob-matches but is dropped (`"abc".startswith("ac")` is false),
and the key `acX` does not glob-match but is returned. -/
theorem C8_get_keys_counterexample :
    get_keys ⟨["abc"], none, false, .ok []⟩ "a*c" none = [] ∧
      get_keys_spec ⟨["abc"], none, false, .ok []⟩ "a*c" none = ["abc"] ∧
      get_keys ⟨["abc"], none, false, .ok []⟩ "a*c" none ≠
        get_keys_spec ⟨["abc"], none, false, .ok []⟩ "a*c" none ∧
      get_keys ⟨["acX"], none, false, .ok []⟩ "a*c" none = ["acX"] ∧
      get_keys_spec ⟨["acX"], none, false, .ok []⟩ "a*c" none = [] := by
  decide

/-- With every Redis key decodable, the decode loop returns the raw keys. -/
theorem mapM_decoded_ok {db : List RedisKey}
    (h : ∀ k ∈ db, k.decoded = Except.ok k.raw) :
    db.mapM (fun k => k.decoded) = Except.ok (db.map (fun k => k.raw)) := by
  induction db with
  | nil => rfl
  | cons k ks ih =>
    rw [List.mapM_cons, h k (by simp), ih (fun x hx => h x (by simp [hx]))]
    rfl

theorem exceptOkBind {ε α β : Type} (a : α) (f : α → Except ε β) :
    (Except.ok a >>= f) = f a := rfl

theorem pyTryPure {α : Type} (v d : α) : pyTry (pure v) d = v := rfl

theorem redisKeysStep_none (rf : Bool) (pat : String) :
    redisKeysStep none rf pat = Except.ok [] := rfl

theorem redisKeysStep_ok {db : List RedisKey} (pat : String)
    (h : ∀ k ∈ db, k.decoded = Except.ok k.raw) :
    redisKeysStep (some db) false pat =
      Except.ok (((db.filter (fun k => globMatch pat k.raw)).map
        (fun k => k.raw)).map stripNamespace) := by
  unfold redisKeysStep
  simp only [Bool.false_eq_true, if_false]
  rw [mapM_decoded_ok (fun k hk => h k (List.mem_of_mem_filter hk))]
  rfl

/-- Evaluation of `get_keys` with a healthy Redis round trip: the result is the
sorted de-duplicated union of the three per-tier contributions, each with its
own matching semantics. -/
theorem get_keys_eval (env : CacheEnv) (pattern : String) (ns : Option String)
    (hrf : env.redisFail = false)
    (hdec : ∀ db, env.redis = some db → ∀ k ∈ db, k.decoded = Except.ok k.raw) :
    get_keys env pattern ns = pySortedSet
      ((env.memoryKeys.filter (fun k =>
          pyStartsWith k (pyRemoveStar (patternWithNamespace pattern ns)))).map
            stripNamespace ++
        (match env.redis with
          | none => ([] : List String)
          | some db =>
            ((db.filter (fun k : RedisKey =>
                globMatch (patternWithNamespace pattern ns) k.raw)).map
              (fun k : RedisKey => k.raw)).map stripNamespace) ++
        (match env.cacheDirFiles with
          | .error _ => ([] : List String)
          | .ok fs =>
            fs.filter (fun b =>
              globMatch (patternWithNamespace pattern ns ++ ".cache") b)).map
          fileRawKey) := by
  cases hre : env.redis with
  | none =>
    simp only [get_keys, get_keys_run, hre, redisKeysStep_none, exceptOkBind,
      pyTryPure]
  | some db =>
    simp only [get_keys, get_keys_run, hre, hrf,
      redisKeysStep_ok (patternWithNamespace pattern ns) (hdec db hre),
      exceptOkBind, pyTryPure]

/-- C8 amended: `get_keys` returns a sorted, duplicate-free list, and a raw
key is in it exactly when it comes from a memory key having the `'*'`-stripped
pattern as a *prefix*, a Redis key glob-matching the pattern, or a cache file
glob-matching `pattern + ".cache"` — the file and remote tiers match by glob
but the memory tier only by prefix. -/
theorem C8_get_keys_amended (env : CacheEnv) (pattern : String) (ns : Option String)
    (hrf : env.redisFail = false)
    (hdec : ∀ db, env.redis = some db → ∀ k ∈ db, k.decoded = Except.ok k.raw) :
    (get_keys env pattern ns).Pairwise (fun x y => pyStrLe x y = true) ∧
      (get_keys env pattern ns).Nodup ∧
      ∀ x, x ∈ get_keys env pattern ns ↔
        (x ∈ (env.memoryKeys.filter (fun k =>
            pyStartsWith k (pyRemoveStar (patternWithNamespace pattern ns)))).map
              stripNamespace ∨
          x ∈ (match env.redis with
            | none => ([] : List String)
            | some db =>
              ((db.filter (fun k : RedisKey =>
                  globMatch (patternWithNamespace pattern ns) k.raw)).map
                (fun k : RedisKey => k.raw)).map stripNamespace) ∨
          x ∈ (match env.cacheDirFiles with
            | .error _ => ([] : List String)
            | .ok fs =>
              fs.filter (fun b =>
                globMatch (patternWithNamespace pattern ns ++ ".cache") b)).map
            fileRawKey) := by
  rw [get_keys_eval env pattern ns hrf hdec]
  refine ⟨sorted_pySortedSet _, nodup_pySortedSet _, ?_⟩
  intro x
  rw [mem_pySortedSet, List.mem_append, List.mem_append, or_assoc]

theorem C8_get_keys_amended_witness :
    "k1" ∈ get_keys ⟨["ns:k1"], some [⟨"ns:k2", Except.ok "ns:k2"⟩], false,
        .ok ["ns:k3.cache"]⟩ "k*" (some "ns") :=
  ((C8_get_keys_amended ⟨["ns:k1"], some [⟨"ns:k2", Except.ok "ns:k2"⟩], false,
      .ok ["ns:k3.cache"]⟩ "k*" (some "ns") rfl
      (by intro db hdb k hk
          cases hdb
          fin_cases hk
          rfl)).2.2 "k1").mpr
    (Or.inl (by decide))

/-- An undecodable key anywhere in the list makes the decode loop raise. -/
theorem mapM_decoded_error (db : List RedisKey) (k : RedisKey) (hk : k ∈ db)
    (he : k.decoded = Except.error ()) :
    ∃ e, db.mapM (fun x => x.decoded) = Except.error e := by
  induction db with
  | nil => simp at hk
  | cons a as ih =>
    rw [List.mapM_cons]
    rcases List.mem_cons.mp hk with rfl | hk'
    · exact ⟨(), by rw [he]; rfl⟩
    · cases ha : a.decoded with
      | error e => exact ⟨e, by rfl⟩
      | ok v =>
        obtain ⟨e, hrec⟩ := ih hk'
        exact ⟨e, by rw [hrec]; rfl⟩

theorem exceptErrorBind {ε α β : Type} (e : ε) (f : α → Except ε β) :
    (Except.error e >>= f) = Except.error e := rfl

theorem pyTryError {α : Type} (e : Unit) (d : α) :
    pyTry (Except.error e) d = d := rfl

theorem redisKeysStep_fail (db : List RedisKey) (pat : String) :
    redisKeysStep (some db) true pat = Except.error () := rfl

theorem redisNamespacesStep_fail (db : List RedisKey) :
    redisNamespacesStep (some db) true = Except.error () := rfl

/-- C10: `get_keys` and `get_namespaces` wrap their whole bodies in a handler
returning `[]`: any internal failure — a failing `redis.keys` round trip, an
undecodable remote key, a failing `os.listdir` — yields the empty list, and
an empty cache yields the empty list too, so a failing cache is
indistinguishable from an empty one at these interfaces. -/
theorem C10_listing_errors_fallback (env : CacheEnv) (pattern : String)
    (ns : Option String) :
    (∀ e, get_keys_run env pattern ns = Except.error e →
        get_keys env pattern ns = []) ∧
      (∀ e, get_namespaces_run env = Except.error e → get_namespaces env = []) ∧
      (∀ db, env.redis = some db → env.redisFail = true →
        get_keys env pattern ns = [] ∧ get_namespaces env = []) ∧
      (∀ e, env.cacheDirFiles = Except.error e → get_namespaces env = []) ∧
      (∀ db k, env.redis = some db → env.redisFail = false → k ∈ db →
        k.decoded = Except.error () → get_namespaces env = []) ∧
      get_keys ⟨[], none, false, .ok []⟩ pattern ns = [] ∧
      get_namespaces ⟨[], none, false, .ok []⟩ = [] := by
  refine ⟨?_, ?_, ?_, ?_, ?_, rfl, rfl⟩
  · intro e h
    simp [get_keys, h, pyTry]
  · intro e h
    simp [get_namespaces, h, pyTry]
  · intro db hdb hrf
    constructor
    · simp only [get_keys, get_keys_run, hdb, hrf, redisKeysStep_fail,
        exceptErrorBind, pyTryError]
    · simp only [get_namespaces, get_namespaces_run, hdb, hrf,
        redisNamespacesStep_fail, exceptErrorBind, pyTryError]
  · intro e hcd
    cases hstep : redisNamespacesStep env.redis env.redisFail with
    | error e' =>
      simp only [get_namespaces, get_namespaces_run, hstep, exceptErrorBind,
        pyTryError]
    | ok l =>
      simp only [get_namespaces, get_namespaces_run, hstep, exceptOkBind, hcd,
        exceptErrorBind, pyTryError]
  · intro db k hdb hrf hk he
    obtain ⟨e, hmap⟩ := mapM_decoded_error db k hk he
    have hstep : redisNamespacesStep (some db) false = Except.error e := by
      unfold redisNamespacesStep
      simp only [Bool.false_eq_true, if_false]
      rw [hmap]
      rfl
    simp only [get_namespaces, get_namespaces_run, hdb, hrf, hstep,
      exceptErrorBind, pyTryError]

theorem C10_listing_errors_fallback_witness :
    get_keys ⟨["default:k"], some [⟨"x", Except.ok "x"⟩], true, .ok []⟩
        "*" none = [] ∧
      get_namespaces ⟨["default:k"], some [⟨"x", Except.ok "x"⟩], true,
        .ok []⟩ = [] :=
  (C10_listing_errors_fallback
      ⟨["default:k"], some [⟨"x", Except.ok "x"⟩], true, .ok []⟩ "*"
      none).2.2.1 [⟨"x", Except.ok "x"⟩] rfl rfl
